import Mathlib

/-!
Shallow embedding of the reconciliation logic of the Joker DNS provider
(`provider.go`).  Go strings are modelled as `List Char`; `time.Duration`
TTLs already converted to whole seconds are modelled as `Int`.  The HTTP
transport is abstracted as an oracle `ReplaceCall → Option Err`: `none`
means the upstream accepted the replace call, `some e` means it failed
with error `e`.  Each provider operation is modelled to additionally
return the ordered trace of replace calls it issued, so that properties
about which calls were (or were never) made are statable.
-/

namespace Joker

/-- A Go string, as its list of characters. -/
abbrev GoStr := List Char

/-- Convert a Lean string literal to the `GoStr` model. -/
def str (s : String) : GoStr := s.data

/-- Errors surfaced to the caller (Go `error`), kept abstract as a message. -/
abbrev Err := GoStr

/-- Go `strings.TrimSuffix s suf`: removes exactly one trailing copy of
`suf` when present, otherwise returns `s` unchanged. -/
def trimSuffix (s suf : GoStr) : GoStr :=
  if suf.isSuffixOf s then s.take (s.length - suf.length) else s

/-- Go `strings.Trim v "\""`: removes all leading and all trailing
double-quote characters. -/
def trimQuotes (v : GoStr) : GoStr :=
  ((v.dropWhile (fun c => c = '"')).reverse.dropWhile (fun c => c = '"')).reverse

/-- `normalizeTXT` from provider.go: if the value has length ≥ 2 and both
begins and ends with a double quote, apply `strings.Trim(v, "\"")`;
otherwise return it unchanged. -/
def normalizeTXT (v : GoStr) : GoStr :=
  if 2 ≤ v.length ∧ ['"'].isPrefixOf v ∧ ['"'].isSuffixOf v then
    trimQuotes v
  else v

/-- `normalizeZone` from provider.go. -/
def normalizeZone (z : GoStr) : GoStr := trimSuffix z ['.']

/-- `labelRelativeToZone` from provider.go. -/
def labelRelativeToZone (name zone : GoStr) : GoStr :=
  let name1 := trimSuffix name ['.']
  let zone1 := trimSuffix zone ['.']
  let suffixZ := '.' :: zone1
  let name2 := if suffixZ.isSuffixOf name1 then trimSuffix name1 suffixZ else name1
  trimSuffix name2 ['.']

/-- A caller-supplied DNS record (libdns.RR): name, type, data payload and
TTL in whole seconds (`int(TTL.Seconds())` in the Go source). -/
structure Record where
  name : GoStr
  rtype : GoStr
  data : GoStr
  ttl : Int
deriving DecidableEq, Repr

/-- `rrsetKey` from provider.go. -/
structure RRsetKey where
  zone : GoStr
  label : GoStr
  rtype : GoStr
deriving DecidableEq, Repr

/-- `minTTL` from provider.go: minimum TTL of the records, clamped to
[60, 86400]; 60 for the empty list. -/
def minTTL (records : List Record) : Int :=
  match records with
  | [] => 60
  | r :: rest =>
    let m := rest.foldl (fun m s => if s.ttl < m then s.ttl else m) r.ttl
    if m < 60 then 60 else if m > 86400 then 86400 else m

/-- The TTL clamp performed inside `replaceRRSet` (provider.go lines
261-265), applied to whatever TTL it receives, independently of the clamp
inside `minTTL`. -/
def clampTTL (ttl : Int) : Int :=
  if ttl < 60 then 60 else if ttl > 86400 then 86400 else ttl

/-- The outbound replace request that `replaceRRSet` builds and posts:
the form fields zone, label, type, value list and (clamped) ttl.  The
transport itself (HTTP) is abstracted away; a call's identity is this
form content. -/
structure ReplaceCall where
  zone : GoStr
  label : GoStr
  rtype : GoStr
  values : List GoStr
  ttl : Int
deriving DecidableEq, Repr

/-- The pure form-building part of `replaceRRSet` from provider.go:
re-normalizes the zone, trims a trailing dot from the label, and clamps
the TTL into [60, 86400]. -/
def replaceCallOf (zone label rtype : GoStr) (values : List GoStr) (ttl : Int) :
    ReplaceCall :=
  { zone := normalizeZone zone
    label := trimSuffix label ['.']
    rtype := rtype
    values := values
    ttl := clampTTL ttl }

/-- The `value` form field: `strings.Join(values, ",")` (and `""` when the
value list is empty). -/
def formValue (c : ReplaceCall) : GoStr := List.intercalate [','] c.values

/-- One step of the map-building loops of AppendRecords/DeleteRecords
(`grouped[key] = append(grouped[key], rec)`), with the Go map modelled as
an association list in first-insertion key order. -/
def insertGrouped (m : List (RRsetKey × List Record)) (k : RRsetKey) (r : Record) :
    List (RRsetKey × List Record) :=
  match m with
  | [] => [(k, [r])]
  | (k0, rs) :: rest =>
    if k0 = k then (k0, rs ++ [r]) :: rest
    else (k0, rs) :: insertGrouped rest k r

/-- The rrsetKey computed for a record in the grouping loops: the
(already normalized) zone, the record name relative to the zone, and the
record type. -/
def rrsetKeyOf (z : GoStr) (r : Record) : RRsetKey :=
  { zone := z, label := labelRelativeToZone r.name z, rtype := r.rtype }

/-- The grouping loop shared by AppendRecords and DeleteRecords.  Go map
iteration order is unspecified; the model fixes first-insertion order,
one admissible order, and order-sensitive claims are read relative to the
processing order. -/
def groupRecords (z : GoStr) (records : List Record) : List (RRsetKey × List Record) :=
  records.foldl (fun m r => insertGrouped m (rrsetKeyOf z r) r) []

/-- The bucket of a key in the grouped map. -/
def lookupMembers : List (RRsetKey × List Record) → RRsetKey → List Record
  | [], _ => []
  | g :: rest, k => if g.1 = k then g.2 else lookupMembers rest k

/-- The per-group value list built by AppendRecords: each member's data,
in member order, normalized by `normalizeTXT` when the group's type is
TXT. -/
def appendValues (key : RRsetKey) (recs : List Record) : List GoStr :=
  recs.map (fun r => if key.rtype = str "TXT" then normalizeTXT r.data else r.data)

/-- The replace call AppendRecords issues for one group. -/
def appendCallOf (g : RRsetKey × List Record) : ReplaceCall :=
  replaceCallOf g.1.zone g.1.label g.1.rtype (appendValues g.1 g.2) (minTTL g.2)

/-- The replace call DeleteRecords issues for one group: `nil` values
(empty value list deletes the whole rrset). -/
def deleteCallOf (g : RRsetKey × List Record) : ReplaceCall :=
  replaceCallOf g.1.zone g.1.label g.1.rtype [] (minTTL g.2)

/-- The per-group loops of AppendRecords and DeleteRecords, which differ
only in the call they build (`callOf`): issue the group's replace call;
on failure return at once with the records accumulated so far and the
error; on success append the group's records and continue.  Returns
(trace of issued calls, returned records, returned error). -/
def runReplaceLoop (t : ReplaceCall → Option Err)
    (callOf : RRsetKey × List Record → ReplaceCall) :
    List (RRsetKey × List Record) → List ReplaceCall × List Record × Option Err
  | [] => ([], [], none)
  | g :: rest =>
    match t (callOf g) with
    | some e => ([callOf g], [], some e)
    | none =>
      let out := runReplaceLoop t callOf rest
      (callOf g :: out.1, g.2 ++ out.2.1, out.2.2)

/-- `AppendRecords` from provider.go, with the issued calls exposed. -/
def appendRecords (t : ReplaceCall → Option Err) (zone : GoStr) (records : List Record) :
    List ReplaceCall × List Record × Option Err :=
  runReplaceLoop t appendCallOf (groupRecords (normalizeZone zone) records)

/-- `DeleteRecords` from provider.go, with the issued calls exposed. -/
def deleteRecords (t : ReplaceCall → Option Err) (zone : GoStr) (records : List Record) :
    List ReplaceCall × List Record × Option Err :=
  runReplaceLoop t deleteCallOf (groupRecords (normalizeZone zone) records)

/-- The credential validation of `Provision` from provider.go (lines
81-93): exactly one of api_token and username/password must be
configured; the username/password scheme requires both fields non-empty. -/
def provisionCheck (username password apiToken : GoStr) : Option Err :=
  let hasUserPass := !username.isEmpty && !password.isEmpty
  let hasToken := !apiToken.isEmpty
  if hasToken && hasUserPass then
    some (str "configure either api_token or username/password, not both")
  else if hasToken then none
  else if !username.isEmpty && !password.isEmpty then none
  else some (str "either api_token or username/password must be configured")

/-- Modelled from the spec: the host plugin system (Caddy, outside this
repository's src) provisions the provider before invoking any operation,
and a Provision error is fatal to the whole invocation, so no replace
call is attempted.  The validation itself is `provisionCheck`, taken from
provider.go. -/
def provisionedAppend (username password apiToken : GoStr)
    (t : ReplaceCall → Option Err) (zone : GoStr) (records : List Record) :
    List ReplaceCall × List Record × Option Err :=
  match provisionCheck username password apiToken with
  | some e => ([], [], some e)
  | none => appendRecords t zone records

/-- Modelled from the spec: as `provisionedAppend`, for DeleteRecords. -/
def provisionedDelete (username password apiToken : GoStr)
    (t : ReplaceCall → Option Err) (zone : GoStr) (records : List Record) :
    List ReplaceCall × List Record × Option Err :=
  match provisionCheck username password apiToken with
  | some e => ([], [], some e)
  | none => deleteRecords t zone records

/-- The records of a list of groups, concatenated in group order. -/
def recsOf (gs : List (RRsetKey × List Record)) : List Record :=
  (gs.map Prod.snd).flatten

/-- The clamp exactly as the spec words it: `min(max(t, 60), 86400)`. -/
def specClamp (t : Int) : Int := min (max t 60) 86400

theorem recsOf_nil : recsOf [] = [] := rfl

theorem recsOf_cons (g : RRsetKey × List Record) (gs : List (RRsetKey × List Record)) :
    recsOf (g :: gs) = g.2 ++ recsOf gs := rfl

theorem runReplaceLoop_ok_append (t : ReplaceCall → Option Err)
    (callOf : RRsetKey × List Record → ReplaceCall)
    (gs1 rest : List (RRsetKey × List Record))
    (h : ∀ g ∈ gs1, t (callOf g) = none) :
    runReplaceLoop t callOf (gs1 ++ rest) =
      (gs1.map callOf ++ (runReplaceLoop t callOf rest).1,
       recsOf gs1 ++ (runReplaceLoop t callOf rest).2.1,
       (runReplaceLoop t callOf rest).2.2) := by
  induction gs1 with
  | nil => simp [recsOf]
  | cons g gs ih =>
    have hg : t (callOf g) = none := h g (by simp)
    have ih' := ih (fun g' hg' => h g' (by simp [hg']))
    simp only [List.cons_append, runReplaceLoop, hg, recsOf_cons, List.map_cons,
      List.append_eq]
    rw [ih']
    simp [List.append_assoc]

theorem runReplaceLoop_fail_cons (t : ReplaceCall → Option Err)
    (callOf : RRsetKey × List Record → ReplaceCall)
    (g : RRsetKey × List Record) (rest : List (RRsetKey × List Record))
    (e : Err) (h : t (callOf g) = some e) :
    runReplaceLoop t callOf (g :: rest) = ([callOf g], [], some e) := by
  simp [runReplaceLoop, h]

theorem mem_runReplaceLoop_calls (t : ReplaceCall → Option Err)
    (callOf : RRsetKey × List Record → ReplaceCall)
    (gs : List (RRsetKey × List Record)) (c : ReplaceCall)
    (hc : c ∈ (runReplaceLoop t callOf gs).1) :
    ∃ g ∈ gs, c = callOf g := by
  induction gs with
  | nil => simp [runReplaceLoop] at hc
  | cons g rest ih =>
    rw [runReplaceLoop] at hc
    cases ht : t (callOf g) with
    | some e =>
      rw [ht] at hc
      simp at hc
      exact ⟨g, by simp, hc⟩
    | none =>
      rw [ht] at hc
      simp at hc
      rcases hc with hc | hc
      · exact ⟨g, by simp, hc⟩
      · obtain ⟨g', hg', hcg'⟩ := ih hc
        exact ⟨g', by simp [hg'], hcg'⟩

theorem lookupMembers_insertGrouped (m : List (RRsetKey × List Record))
    (k k' : RRsetKey) (r : Record) :
    lookupMembers (insertGrouped m k r) k' =
      lookupMembers m k' ++ (if k' = k then [r] else []) := by
  induction m with
  | nil =>
    by_cases h : k = k' <;> simp [insertGrouped, lookupMembers, h, eq_comm]
  | cons g rest ih =>
    obtain ⟨k0, rs⟩ := g
    by_cases h0 : k0 = k
    · subst h0
      by_cases h1 : k0 = k'
      · subst h1
        simp [insertGrouped, lookupMembers]
      · have h1' : ¬k' = k0 := fun h => h1 h.symm
        simp [insertGrouped, lookupMembers, h1, h1']
    · by_cases h1 : k0 = k'
      · subst h1
        simp [insertGrouped, lookupMembers, h0]
      · simp [insertGrouped, lookupMembers, h0, h1, ih]

theorem keys_insertGrouped (m : List (RRsetKey × List Record)) (k : RRsetKey) (r : Record) :
    (insertGrouped m k r).map Prod.fst =
      if k ∈ m.map Prod.fst then m.map Prod.fst else m.map Prod.fst ++ [k] := by
  induction m with
  | nil => simp [insertGrouped]
  | cons g rest ih =>
    obtain ⟨k0, rs⟩ := g
    by_cases h0 : k0 = k
    · simp [insertGrouped, h0]
    · have hk0 : ¬k = k0 := fun h => h0 h.symm
      by_cases hm : k ∈ rest.map Prod.fst <;>
        simp [insertGrouped, h0, ih, hm, hk0]

theorem nodup_keys_insertGrouped (m : List (RRsetKey × List Record))
    (k : RRsetKey) (r : Record) (h : (m.map Prod.fst).Nodup) :
    ((insertGrouped m k r).map Prod.fst).Nodup := by
  rw [keys_insertGrouped]
  split
  · exact h
  · next hmem => simp [List.nodup_append, h, hmem]

theorem lookupMembers_groupFold (z : GoStr) (records : List Record)
    (m : List (RRsetKey × List Record)) (k : RRsetKey) :
    lookupMembers (records.foldl (fun m r => insertGrouped m (rrsetKeyOf z r) r) m) k =
      lookupMembers m k ++ records.filter (fun r => decide (rrsetKeyOf z r = k)) := by
  induction records generalizing m with
  | nil => simp
  | cons r rs ih =>
    simp only [List.foldl_cons, List.filter_cons]
    rw [ih]
    by_cases h : rrsetKeyOf z r = k
    · simp [lookupMembers_insertGrouped, h]
    · have h' : ¬k = rrsetKeyOf z r := fun hh => h hh.symm
      simp [lookupMembers_insertGrouped, h, h']

theorem nodup_keys_groupFold (z : GoStr) (records : List Record)
    (m : List (RRsetKey × List Record)) (h : (m.map Prod.fst).Nodup) :
    (((records.foldl (fun m r => insertGrouped m (rrsetKeyOf z r) r) m)).map Prod.fst).Nodup := by
  induction records generalizing m with
  | nil => exact h
  | cons r rs ih => exact ih _ (nodup_keys_insertGrouped _ _ _ h)

theorem insertGrouped_ne_nil (m : List (RRsetKey × List Record)) (k : RRsetKey) (r : Record) :
    insertGrouped m k r ≠ [] := by
  cases m with
  | nil => simp [insertGrouped]
  | cons g rest =>
    obtain ⟨k0, rs⟩ := g
    by_cases h0 : k0 = k <;> simp [insertGrouped, h0]

theorem groupFold_ne_nil (z : GoStr) (records : List Record)
    (m : List (RRsetKey × List Record)) (h : m ≠ []) :
    records.foldl (fun m r => insertGrouped m (rrsetKeyOf z r) r) m ≠ [] := by
  induction records generalizing m with
  | nil => exact h
  | cons r rs ih => exact ih _ (insertGrouped_ne_nil _ _ _)

theorem groupRecords_ne_nil (z : GoStr) (r : Record) (rs : List Record) :
    groupRecords z (r :: rs) ≠ [] := by
  unfold groupRecords
  simp only [List.foldl_cons]
  exact groupFold_ne_nil z rs _ (insertGrouped_ne_nil _ _ _)

theorem foldl_minIf_eq_foldl_min (rest : List Record) (a : Int) :
    rest.foldl (fun m s => if s.ttl < m then s.ttl else m) a =
      (rest.map Record.ttl).foldl min a := by
  induction rest generalizing a with
  | nil => rfl
  | cons s rest ih =>
    simp only [List.foldl_cons, List.map_cons]
    rw [ih]
    congr 1
    rcases lt_or_le s.ttl a with h | h
    · rw [if_pos h, min_eq_right h.le]
    · rw [if_neg (not_lt.mpr h), min_eq_left h]

theorem clampChain_eq_specClamp (m : Int) :
    (if m < 60 then (60 : Int) else if m > 86400 then 86400 else m) = specClamp m := by
  simp only [specClamp, min_def, max_def]
  split_ifs <;> omega

theorem trimSuffix_of_not_suffix (s suf : GoStr) (h : suf.isSuffixOf s = false) :
    trimSuffix s suf = s := by
  unfold trimSuffix
  rw [if_neg]
  simp [h]

theorem dropWhile_quotes_of_head (xs : GoStr) (h : xs.head? ≠ some '"') :
    xs.dropWhile (fun c => c = '"') = xs := by
  cases xs with
  | nil => rfl
  | cons x t =>
    have hx : ¬(x = '"') := by
      intro hh
      exact h (by simp [hh])
    simp [List.dropWhile_cons, hx]

theorem normalizeTXT_single_wrap (c : GoStr) (h1 : c.head? ≠ some '"')
    (h2 : c.getLast? ≠ some '"') :
    normalizeTXT ('"' :: (c ++ ['"'])) = c := by
  have hcond : 2 ≤ ('"' :: (c ++ ['"'])).length ∧
      (['"'] : GoStr).isPrefixOf ('"' :: (c ++ ['"'])) ∧
      (['"'] : GoStr).isSuffixOf ('"' :: (c ++ ['"'])) := by
    refine ⟨by simp, ?_, ?_⟩
    · simp [List.isPrefixOf]
    · simp [List.isSuffixOf, List.reverse_append, List.isPrefixOf]
  rw [normalizeTXT, if_pos hcond]
  unfold trimQuotes
  cases c with
  | nil => simp [List.dropWhile]
  | cons x xs =>
    have hx : ¬(x = '"') := by
      intro hh
      exact h1 (by simp [hh])
    have hstep1 : ('"' :: (x :: xs ++ ['"'])).dropWhile (fun c => c = '"') =
        x :: (xs ++ ['"']) := by
      simp [List.dropWhile_cons, hx]
    rw [hstep1]
    have hstep2 : (x :: (xs ++ ['"'])).reverse = '"' :: (x :: xs).reverse := by
      simp
    rw [hstep2]
    have hstep3 : ('"' :: (x :: xs).reverse).dropWhile (fun c => c = '"') =
        ((x :: xs).reverse).dropWhile (fun c => c = '"') := by
      simp [List.dropWhile_cons]
    rw [hstep3]
    rw [dropWhile_quotes_of_head _ (by rw [List.head?_reverse]; exact h2)]
    exact List.reverse_reverse _

/-- C2 counterexample: for a name equal to the zone itself (the apex),
`labelRelativeToZone` does not return the empty label — "example.com"
does not end with ".example.com", so the name is kept as-is. -/
theorem C2_counterexample :
    ¬labelRelativeToZone (str "example.com") (str "example.com") = str "" := by
  decide

/-- C2 (amended): `labelRelativeToZone` satisfies the first two spec
examples, but the zone apex yields the full zone name itself, not the
empty label. -/
theorem C2_relativeLabel_examples :
    labelRelativeToZone (str "foo.example.com") (str "example.com") = str "foo" ∧
    labelRelativeToZone (str "foo") (str "example.com") = str "foo" ∧
    labelRelativeToZone (str "example.com") (str "example.com") = str "example.com" := by
  decide

/-- C3 counterexample: `normalizeTXT` does not strip exactly one quote
layer — on the doubly wrapped value `""abc""` it strips both layers
(Go `strings.Trim` removes all leading and trailing quotes), returning
`abc` instead of `"abc"`. -/
theorem C3_counterexample :
    ¬normalizeTXT (str "\"\"abc\"\"") = str "\"abc\"" ∧
    normalizeTXT (str "\"\"abc\"\"") = str "abc" := by
  decide

/-- C3 (amended): when a value has length ≥ 2 and both begins and ends
with a double quote, `normalizeTXT` strips all leading and trailing
double quotes (exactly one layer when the wrapped core itself has no
quote at either edge); any other value is returned unchanged (so
mid-string quotes and unbalanced quoting are untouched), and the spec's
three examples hold. -/
theorem C3_normalizeTXT_amended :
    (∀ v : GoStr,
      ¬(2 ≤ v.length ∧ (['"'] : GoStr).isPrefixOf v ∧ (['"'] : GoStr).isSuffixOf v) →
      normalizeTXT v = v) ∧
    (∀ c : GoStr, c.head? ≠ some '"' → c.getLast? ≠ some '"' →
      normalizeTXT ('"' :: (c ++ ['"'])) = c) ∧
    normalizeTXT (str "\"abc\"") = str "abc" ∧
    normalizeTXT (str "abc") = str "abc" ∧
    normalizeTXT (str "\"abc") = str "\"abc" := by
  refine ⟨?_, normalizeTXT_single_wrap, by decide, by decide, by decide⟩
  intro v hv
  rw [normalizeTXT, if_neg hv]

/-- C3 witness: the amended theorem applied at concrete inputs — the
unbalanced value `"abc` is unchanged, and the singly wrapped core `abc`
is stripped of exactly its one quote layer. -/
theorem C3_witness :
    normalizeTXT (str "\"abc") = str "\"abc" ∧
    normalizeTXT ('"' :: (str "abc" ++ ['"'])) = str "abc" :=
  ⟨C3_normalizeTXT_amended.1 (str "\"abc") (by decide),
   C3_normalizeTXT_amended.2.1 (str "abc") (by decide) (by decide)⟩

/-- C4: `minTTL` is always within [60, 86400]; on the empty list it is
`specClamp 60 = 60`, and on a non-empty list it is the spec's clamp of
the minimum of the records' TTLs. -/
theorem C4_minTTL_spec :
    minTTL [] = specClamp 60 ∧ specClamp 60 = 60 ∧
    (∀ records : List Record, 60 ≤ minTTL records ∧ minTTL records ≤ 86400) ∧
    (∀ (r : Record) (rest : List Record),
      minTTL (r :: rest) = specClamp ((rest.map Record.ttl).foldl min r.ttl)) := by
  refine ⟨by decide, by decide, ?_, ?_⟩
  · intro records
    cases records with
    | nil => simp [minTTL]
    | cons r rest =>
      simp only [minTTL]
      split_ifs <;> omega
  · intro r rest
    simp only [minTTL]
    rw [foldl_minIf_eq_foldl_min, clampChain_eq_specClamp]

/-- C8 counterexample: `labelRelativeToZone` is not idempotent — with
name `a.z.z` and zone `z`, one application yields `a.z`, which still
ends in `.z`, so a second application strips further to `a`. -/
theorem C8_counterexample :
    ¬labelRelativeToZone (labelRelativeToZone (str "a.z.z") (str "z")) (str "z") =
      labelRelativeToZone (str "a.z.z") (str "z") := by
  decide

/-- C8 (amended): `labelRelativeToZone` is idempotent whenever its
result neither ends with a trailing dot nor still ends with "." followed
by the trimmed zone; the counterexample shows it is not idempotent in
general. -/
theorem C8_relativeLabel_conditional_idem (name zone : GoStr)
    (h1 : (['.'] : GoStr).isSuffixOf (labelRelativeToZone name zone) = false)
    (h2 : ('.' :: trimSuffix zone ['.']).isSuffixOf (labelRelativeToZone name zone) = false) :
    labelRelativeToZone (labelRelativeToZone name zone) zone =
      labelRelativeToZone name zone := by
  conv_lhs => rw [labelRelativeToZone]
  rw [trimSuffix_of_not_suffix _ _ h1]
  rw [if_neg (by simp [h2])]
  rw [trimSuffix_of_not_suffix _ _ h1]

/-- C8 witness: idempotency at a concrete well-formed input. -/
theorem C8_witness :
    labelRelativeToZone
        (labelRelativeToZone (str "foo.example.com") (str "example.com"))
        (str "example.com") =
      labelRelativeToZone (str "foo.example.com") (str "example.com") :=
  C8_relativeLabel_conditional_idem (str "foo.example.com") (str "example.com")
    (by decide) (by decide)

/-- C7: grouping invariants — the grouped map has pairwise distinct
keys; each key's bucket is exactly the input records with that rrsetKey,
in the caller's relative input order (so TTL and value play no role);
records with equal keys share a bucket, and every bucket member's key is
the bucket's key (records differing in label or type are never merged). -/
theorem C7_grouping_invariants (z : GoStr) (records : List Record) :
    ((groupRecords z records).map Prod.fst).Nodup ∧
    (∀ k : RRsetKey,
      lookupMembers (groupRecords z records) k =
        records.filter (fun r => decide (rrsetKeyOf z r = k))) ∧
    (∀ r1 r2 : Record, r1 ∈ records → r2 ∈ records →
      rrsetKeyOf z r1 = rrsetKeyOf z r2 →
      r1 ∈ lookupMembers (groupRecords z records) (rrsetKeyOf z r1) ∧
      r2 ∈ lookupMembers (groupRecords z records) (rrsetKeyOf z r1)) ∧
    (∀ (k : RRsetKey) (r : Record),
      r ∈ lookupMembers (groupRecords z records) k → rrsetKeyOf z r = k) := by
  have hmem : ∀ k, lookupMembers (groupRecords z records) k =
      records.filter (fun r => decide (rrsetKeyOf z r = k)) := by
    intro k
    unfold groupRecords
    have h := lookupMembers_groupFold z records [] k
    simpa [lookupMembers] using h
  refine ⟨?_, hmem, ?_, ?_⟩
  · unfold groupRecords
    exact nodup_keys_groupFold z records [] (by simp)
  · intro r1 r2 h1 h2 hk
    rw [hmem]
    constructor <;> simp [List.mem_filter, h1, h2, hk]
  · intro k r hr
    rw [hmem] at hr
    simp [List.mem_filter] at hr
    exact hr.2

/-- Concrete fixtures for the witnesses below. -/
def wZone : GoStr := str "example.com"

def wRecA : Record := ⟨str "a.example.com", str "A", str "1.2.3.4", 300⟩

def wRecB : Record := ⟨str "b.example.com", str "A", str "5.6.7.8", 120⟩

def wRecC : Record := ⟨str "c.example.com", str "A", str "9.9.9.9", 999999999⟩

def wTxt1 : Record := ⟨str "foo.example.com", str "TXT", str "\"v1\"", 300⟩

def wTxt2 : Record := ⟨str "foo.example.com", str "TXT", str "v2", 600⟩

def wG1 : RRsetKey × List Record := (rrsetKeyOf (normalizeZone wZone) wRecA, [wRecA])

def wG2 : RRsetKey × List Record := (rrsetKeyOf (normalizeZone wZone) wRecB, [wRecB])

def wG3 : RRsetKey × List Record := (rrsetKeyOf (normalizeZone wZone) wRecC, [wRecC])

/-- A transport that fails exactly on the rrset with label "b". -/
def wFailB : ReplaceCall → Option Err :=
  fun c => if c.label = str "b" then some (str "boom") else none

/-- A transport on which every replace call succeeds. -/
def wOk : ReplaceCall → Option Err := fun _ => none

/-- C7 witness: two TXT records with the same name land in the same
bucket despite differing TTL and value. -/
theorem C7_witness :
    wTxt1 ∈ lookupMembers (groupRecords (str "example.com") [wTxt1, wTxt2, wRecA])
        (rrsetKeyOf (str "example.com") wTxt1) ∧
    wTxt2 ∈ lookupMembers (groupRecords (str "example.com") [wTxt1, wTxt2, wRecA])
        (rrsetKeyOf (str "example.com") wTxt1) :=
  (C7_grouping_invariants (str "example.com") [wTxt1, wTxt2, wRecA]).2.2.1 wTxt1 wTxt2
    (by decide) (by decide) (by decide)

/-- C1: fail-fast for both reconciliation operations — if every group
before `g` in processing order succeeds and `g`'s replace call fails,
the operation returns exactly the earlier groups' records plus the
error, and the trace of issued calls stops at `g` (no call for any
remaining group). -/
theorem C1_fail_fast (t : ReplaceCall → Option Err) (zone : GoStr) (records : List Record)
    (gs1 : List (RRsetKey × List Record)) (g : RRsetKey × List Record)
    (gs2 : List (RRsetKey × List Record)) (e : Err)
    (hsplit : groupRecords (normalizeZone zone) records = gs1 ++ g :: gs2) :
    ((∀ g' ∈ gs1, t (appendCallOf g') = none) → t (appendCallOf g) = some e →
      appendRecords t zone records =
        (gs1.map appendCallOf ++ [appendCallOf g], recsOf gs1, some e)) ∧
    ((∀ g' ∈ gs1, t (deleteCallOf g') = none) → t (deleteCallOf g) = some e →
      deleteRecords t zone records =
        (gs1.map deleteCallOf ++ [deleteCallOf g], recsOf gs1, some e)) := by
  constructor
  · intro hok hfail
    unfold appendRecords
    rw [hsplit, runReplaceLoop_ok_append _ _ _ _ hok,
      runReplaceLoop_fail_cons _ _ _ _ _ hfail]
    simp
  · intro hok hfail
    unfold deleteRecords
    rw [hsplit, runReplaceLoop_ok_append _ _ _ _ hok,
      runReplaceLoop_fail_cons _ _ _ _ _ hfail]
    simp

/-- C1 witness: with three singleton groups and a transport failing on
the second, AppendRecords issues exactly the first two calls and returns
the first group's record plus the error. -/
theorem C1_witness :
    appendRecords wFailB wZone [wRecA, wRecB, wRecC] =
      ([wG1].map appendCallOf ++ [appendCallOf wG2], recsOf [wG1], some (str "boom")) :=
  (C1_fail_fast wFailB wZone [wRecA, wRecB, wRecC] [wG1] wG2 [wG3] (str "boom")
      (by decide)).1 (by decide) (by decide)

/-- C5: every replace call issued by DeleteRecords carries an empty
value list (hence an empty `value` form field) no matter what data the
source records carried, and a non-empty record list always issues at
least one replace call. -/
theorem C5_delete_empty_values (t : ReplaceCall → Option Err) (zone : GoStr)
    (records : List Record) :
    (∀ c ∈ (deleteRecords t zone records).1, c.values = [] ∧ formValue c = []) ∧
    (records ≠ [] → (deleteRecords t zone records).1 ≠ []) := by
  constructor
  · intro c hc
    obtain ⟨g, _, rfl⟩ := mem_runReplaceLoop_calls _ _ _ _ hc
    exact ⟨rfl, rfl⟩
  · intro hne
    cases records with
    | nil => exact absurd rfl hne
    | cons r rs =>
      unfold deleteRecords
      cases hg : groupRecords (normalizeZone zone) (r :: rs) with
      | nil => exact absurd hg (groupRecords_ne_nil _ r rs)
      | cons g gs =>
        rw [runReplaceLoop]
        cases t (deleteCallOf g) <;> simp

/-- C5 witness: DeleteRecords on a record carrying non-empty data still
issues its call with an empty value list. -/
theorem C5_witness :
    ((deleteCallOf wG1).values = [] ∧ formValue (deleteCallOf wG1) = []) ∧
    (deleteRecords wOk wZone [wRecA]).1 ≠ [] :=
  ⟨(C5_delete_empty_values wOk wZone [wRecA]).1 (deleteCallOf wG1) (by decide),
   (C5_delete_empty_values wOk wZone [wRecA]).2 (by decide)⟩

/-- C6: when every replace call succeeds, AppendRecords issues exactly
one call per group, in group order, whose value list is every member's
value in member order — normalized by normalizeTXT for TXT groups,
passed through otherwise — and whose TTL is the group's clamped
representative TTL; all grouped records are returned with no error. -/
theorem C6_append_calls (t : ReplaceCall → Option Err) (zone : GoStr)
    (records : List Record) (hok : ∀ c, t c = none) :
    (appendRecords t zone records).1 =
      (groupRecords (normalizeZone zone) records).map (fun g =>
        ({ zone := normalizeZone g.1.zone
           label := trimSuffix g.1.label ['.']
           rtype := g.1.rtype
           values := g.2.map (fun r =>
             if g.1.rtype = str "TXT" then normalizeTXT r.data else r.data)
           ttl := clampTTL (minTTL g.2) } : ReplaceCall)) ∧
    (appendRecords t zone records).2.1 = recsOf (groupRecords (normalizeZone zone) records) ∧
    (appendRecords t zone records).2.2 = none := by
  have h := runReplaceLoop_ok_append t appendCallOf
      (groupRecords (normalizeZone zone) records) [] (fun g _ => hok _)
  rw [List.append_nil] at h
  unfold appendRecords
  rw [h]
  refine ⟨?_, by simp [runReplaceLoop], by simp [runReplaceLoop]⟩
  simp [runReplaceLoop, appendCallOf, replaceCallOf, appendValues]

/-- C6 witness: the theorem applied to a concrete all-success run. -/
theorem C6_witness :
    (appendRecords wOk wZone [wTxt1, wTxt2, wRecA]).2.2 = none :=
  (C6_append_calls wOk wZone [wTxt1, wTxt2, wRecA] (fun _ => rfl)).2.2

/-- C9: Provision's credential validation succeeds iff exactly one
credential scheme is configured (api_token, or username and password
both non-empty); when it fails — both schemes or neither — a hosted
invocation aborts with the error and zero replace calls. -/
theorem C9_provision_validation :
    (∀ u p a : GoStr,
      provisionCheck u p a = none ↔
        ((a ≠ [] ∧ ¬(u ≠ [] ∧ p ≠ [])) ∨ ((u ≠ [] ∧ p ≠ []) ∧ a = []))) ∧
    (∀ (u p a : GoStr) (t : ReplaceCall → Option Err) (zone : GoStr)
        (records : List Record) (e : Err),
      provisionCheck u p a = some e →
      (provisionedAppend u p a t zone records).1 = [] ∧
      (provisionedDelete u p a t zone records).1 = [] ∧
      (provisionedAppend u p a t zone records).2.2 = some e ∧
      (provisionedDelete u p a t zone records).2.2 = some e) := by
  constructor
  · intro u p a
    rcases u with _ | ⟨cu, u⟩ <;> rcases p with _ | ⟨cp, p⟩ <;>
      rcases a with _ | ⟨ca, a⟩ <;> simp [provisionCheck]
  · intro u p a t zone records e h
    unfold provisionedAppend provisionedDelete
    rw [h]
    exact ⟨rfl, rfl, rfl, rfl⟩

/-- C9 witness: with both credential schemes supplied, the hosted
invocation issues zero replace calls and surfaces the validation error. -/
theorem C9_witness :
    (provisionedAppend (str "user") (str "pass") (str "tok") wOk wZone [wRecA]).1 = [] ∧
    (provisionedDelete (str "user") (str "pass") (str "tok") wOk wZone [wRecA]).1 = [] :=
  ⟨(C9_provision_validation.2 (str "user") (str "pass") (str "tok") wOk wZone [wRecA]
      (str "configure either api_token or username/password, not both") (by decide)).1,
   (C9_provision_validation.2 (str "user") (str "pass") (str "tok") wOk wZone [wRecA]
      (str "configure either api_token or username/password, not both") (by decide)).2.1⟩

/-- C10: `replaceRRSet` clamps whatever TTL it receives into
[60, 86400] independently of the clamp in `minTTL`, so every call issued
by AppendRecords or DeleteRecords carries an in-range TTL for arbitrary
input record TTLs. -/
theorem C10_ttl_always_in_range :
    (∀ ttl : Int, 60 ≤ clampTTL ttl ∧ clampTTL ttl ≤ 86400) ∧
    (∀ (zone label rtype : GoStr) (values : List GoStr) (ttl : Int),
      (replaceCallOf zone label rtype values ttl).ttl = clampTTL ttl) ∧
    (∀ (t : ReplaceCall → Option Err) (zone : GoStr) (records : List Record)
        (c : ReplaceCall),
      c ∈ (appendRecords t zone records).1 ∨ c ∈ (deleteRecords t zone records).1 →
      60 ≤ c.ttl ∧ c.ttl ≤ 86400) := by
  have hclamp : ∀ ttl : Int, 60 ≤ clampTTL ttl ∧ clampTTL ttl ≤ 86400 := by
    intro ttl
    unfold clampTTL
    split_ifs <;> omega
  refine ⟨hclamp, fun _ _ _ _ _ => rfl, ?_⟩
  intro t zone records c hc
  rcases hc with hc | hc
  · obtain ⟨g, _, rfl⟩ := mem_runReplaceLoop_calls _ _ _ _ hc
    exact hclamp _
  · obtain ⟨g, _, rfl⟩ := mem_runReplaceLoop_calls _ _ _ _ hc
    exact hclamp _

/-- C10 witness: a record with a huge TTL still produces an in-range
call TTL. -/
theorem C10_witness :
    60 ≤ (appendCallOf wG3).ttl ∧ (appendCallOf wG3).ttl ≤ 86400 :=
  C10_ttl_always_in_range.2.2 wOk wZone [wRecC] (appendCallOf wG3) (Or.inl (by decide))

end Joker
